import Mathlib

/-!
Verification of the registry / options-construction / dispatch layer of an
MCP image-generation server.  The development is a shallow embedding of the
Python sources:

* `src/registery.py`      — generator registry (a module-level dict)
* `src/main.py`           — options construction, capability introspection
* `src/utils/utils.py`    — nearest-aspect-ratio selection
* `src/utils/s3.py`       — storage env validation and URL re-publication
* `src/imagen/flux.py`    — asynchronous polling backend
* `src/imagen/runpod_nanobanana.py` — synchronous edit backend

Python dicts are modelled as association lists in insertion order, Python
floats by exact rationals, and the network by explicit oracles (poll-status
sequences, an image-size function, a uuid supply) together with a log of the
calls a function performs.
-/

namespace ImagesMCP

/-- Association list standing for a Python `dict` with string keys; the list
order is the dict's insertion order. -/
abbrev Dict (α : Type) := List (String × α)

/-- The dict's keys, in insertion order. -/
def keys {α : Type} (d : Dict α) : List String :=
  d.map Prod.fst

/-- Python dict lookup. -/
def alookup {α : Type} (k : String) : Dict α → Option α
  | [] => none
  | (k2, v) :: d => if k2 = k then some v else alookup k d

/-- Python dict item assignment: when the key is already present its value is
updated in place (the key keeps its original position); otherwise the new
entry is appended at the end.  This is CPython's documented dict behaviour. -/
def pyDictSet {α : Type} (d : Dict α) (k : String) (v : α) : Dict α :=
  if k ∈ keys d then d.map (fun p => if p.1 = k then (k, v) else p)
  else d ++ [(k, v)]

/-- Building a dict from successive item assignments starting from `d`,
as in a dict merge of `d` with the pairs of `l`. -/
def pyDictExtend {α : Type} (d : Dict α) (l : List (String × α)) : Dict α :=
  l.foldl (fun d2 p => pyDictSet d2 p.1 p.2) d

/-- The value attached to the last pair of `l` carrying key `k`. -/
def lastVal {α : Type} (k : String) : List (String × α) → Option α
  | [] => none
  | (k2, v) :: l =>
    match lastVal k l with
    | some w => some w
    | none => if k2 = k then some v else none

/-- The key sequence with later duplicates dropped: each key keeps its first
occurrence only. -/
def firstDedup : List String → List String
  | [] => []
  | k :: l => k :: firstDedup (l.filter (fun x => x ≠ k))
termination_by l => l.length
decreasing_by
  simp_wf
  exact Nat.lt_succ_of_le (List.length_filter_le _ _)

@[simp] theorem alookup_nil {α : Type} (k : String) :
    alookup k ([] : Dict α) = none := rfl

@[simp] theorem alookup_cons {α : Type} (k k2 : String) (v : α) (d : Dict α) :
    alookup k ((k2, v) :: d) = if k2 = k then some v else alookup k d := rfl

@[simp] theorem keys_nil {α : Type} : keys ([] : Dict α) = [] := rfl

@[simp] theorem keys_cons {α : Type} (k : String) (v : α) (d : Dict α) :
    keys ((k, v) :: d) = k :: keys d := rfl

theorem alookup_eq_none_of_not_mem {α : Type} {k : String} {d : Dict α}
    (h : k ∉ keys d) : alookup k d = none := by
  induction d with
  | nil => rfl
  | cons p d ih =>
    obtain ⟨k2, v⟩ := p
    simp only [keys_cons, List.mem_cons] at h
    push_neg at h
    rw [alookup_cons, if_neg (Ne.symm h.1)]
    exact ih h.2

theorem alookup_append {α : Type} (k : String) (d e : Dict α) :
    alookup k (d ++ e) =
      match alookup k d with
      | some v => some v
      | none => alookup k e := by
  induction d with
  | nil => rfl
  | cons p d ih =>
    obtain ⟨k2, v⟩ := p
    by_cases h : k2 = k <;> simp [h, ih]

theorem alookup_pyDictSet_self {α : Type} (k : String) (v : α) (d : Dict α) :
    alookup k (pyDictSet d k v) = some v := by
  unfold pyDictSet
  by_cases h : k ∈ keys d
  · rw [if_pos h]
    induction d with
    | nil => simp at h
    | cons p d ih =>
      obtain ⟨k2, w⟩ := p
      by_cases h2 : k2 = k
      · subst h2
        simp
      · have hk : k ∈ keys d := by
          rcases (List.mem_cons.mp (by simpa using h)) with h3 | h3
          · exact absurd h3.symm h2
          · exact h3
        simp only [List.map_cons]
        simp [h2]
        exact ih hk
  · rw [if_neg h]
    rw [alookup_append, alookup_eq_none_of_not_mem h]
    simp

theorem alookup_map_update_ne {α : Type} {k k2 : String} (hne : k2 ≠ k)
    (v : α) (d : Dict α) :
    alookup k (d.map (fun p => if p.1 = k2 then (k2, v) else p)) = alookup k d := by
  induction d with
  | nil => rfl
  | cons p d ih =>
    obtain ⟨k3, w⟩ := p
    by_cases h3 : k3 = k2
    · subst h3
      simp [if_neg hne, ih]
    · simp only [List.map_cons]
      by_cases h4 : k3 = k <;> simp [h4, ih, h3, if_neg (Ne.symm hne)]

theorem alookup_pyDictSet_ne {α : Type} {k k2 : String} (hne : k2 ≠ k)
    (v : α) (d : Dict α) : alookup k (pyDictSet d k2 v) = alookup k d := by
  unfold pyDictSet
  by_cases h : k2 ∈ keys d
  · rw [if_pos h]
    exact alookup_map_update_ne hne v d
  · rw [if_neg h, alookup_append]
    cases hl : alookup k d
    · simp [alookup, if_neg hne]
    · simp

theorem alookup_pyDictExtend {α : Type} (k : String) (d : Dict α)
    (l : List (String × α)) :
    alookup k (pyDictExtend d l) =
      match lastVal k l with
      | some v => some v
      | none => alookup k d := by
  induction l generalizing d with
  | nil => rfl
  | cons p l ih =>
    obtain ⟨k2, v⟩ := p
    show alookup k (pyDictExtend (pyDictSet d k2 v) l) = _
    rw [ih]
    cases hl : lastVal k l with
    | some w => simp [lastVal, hl]
    | none =>
      by_cases h2 : k2 = k
      · subst h2
        simp [lastVal, hl, alookup_pyDictSet_self]
      · simp [lastVal, hl, h2, alookup_pyDictSet_ne h2]

theorem keys_map_update {α : Type} (k : String) (v : α) (d : Dict α) :
    keys (d.map (fun p => if p.1 = k then (k, v) else p)) = keys d := by
  induction d with
  | nil => rfl
  | cons p d ih =>
    obtain ⟨k2, w⟩ := p
    by_cases h2 : k2 = k
    · subst h2
      simp [ih]
    · simp [h2, ih]

theorem keys_pyDictSet_of_mem {α : Type} {k : String} {d : Dict α}
    (h : k ∈ keys d) (v : α) : keys (pyDictSet d k v) = keys d := by
  unfold pyDictSet
  rw [if_pos h]
  exact keys_map_update k v d

theorem keys_pyDictSet_of_not_mem {α : Type} {k : String} {d : Dict α}
    (h : k ∉ keys d) (v : α) : keys (pyDictSet d k v) = keys d ++ [k] := by
  unfold pyDictSet
  rw [if_neg h]
  simp [keys]

@[simp] theorem firstDedup_nil : firstDedup [] = [] := by
  unfold firstDedup
  rfl

theorem firstDedup_cons (k : String) (l : List String) :
    firstDedup (k :: l) = k :: firstDedup (l.filter (fun x => x ≠ k)) := by
  rw [firstDedup]

theorem filter_not_mem_append (l ks : List String) (k : String) :
    l.filter (fun x => decide (x ∉ ks ++ [k])) =
      (l.filter (fun x => decide (x ∉ ks))).filter (fun x => x ≠ k) := by
  rw [List.filter_filter]
  apply List.filter_congr
  intro a _
  by_cases h1 : a ∈ ks <;> by_cases h2 : a = k <;> simp [h1, h2, List.mem_append]

theorem mem_firstDedup (x : String) (l : List String) :
    x ∈ firstDedup l ↔ x ∈ l := by
  induction l using firstDedup.induct with
  | case1 => simp
  | case2 k l ih =>
    rw [firstDedup_cons]
    simp only [List.mem_cons, ih, List.mem_filter]
    constructor
    · rintro (rfl | ⟨h, _⟩)
      · exact Or.inl rfl
      · exact Or.inr h
    · rintro (rfl | h)
      · exact Or.inl rfl
      · by_cases hx : x = k
        · exact Or.inl hx
        · exact Or.inr ⟨h, by simpa using hx⟩

theorem keys_pyDictExtend {α : Type} (d : Dict α) (l : List (String × α)) :
    keys (pyDictExtend d l) =
      keys d ++ firstDedup ((l.map Prod.fst).filter (fun x => decide (x ∉ keys d))) := by
  induction l generalizing d with
  | nil => simp [pyDictExtend]
  | cons p l ih =>
    obtain ⟨k, v⟩ := p
    show keys (pyDictExtend (pyDictSet d k v) l) = _
    rw [ih]
    by_cases h : k ∈ keys d
    · rw [keys_pyDictSet_of_mem h]
      simp only [List.map_cons, List.filter_cons]
      rw [if_neg (by simp [h])]
    · rw [keys_pyDictSet_of_not_mem h]
      simp only [List.map_cons, List.filter_cons]
      rw [if_pos (by simp [h])]
      rw [firstDedup_cons, filter_not_mem_append]
      simp

/-! ### `src/registery.py` — the generator registry -/

/-- A Python class as the registry and the capability introspection see it:
its name together with the attribute names defined in the class body itself,
i.e. the keys of the class `__dict__`, as opposed to attributes inherited
from a base class. -/
structure PyClass where
  name : String
  ownAttrs : List String
deriving DecidableEq, Repr

/-- One call of the decorator produced by `register_generator(name)`:
a single item assignment on the module-level `REGISTERED_GENERATORS` dict. -/
def register_generator (d : Dict PyClass) (nm : String) (cls : PyClass) : Dict PyClass :=
  pyDictSet d nm cls

/-- The registry obtained from a sequence of `register_generator` calls,
starting from the empty module-level dict. -/
def registryOf (calls : List (String × PyClass)) : Dict PyClass :=
  calls.foldl (fun d p => register_generator d p.1 p.2) []

/-- `FluxClient` as a registry entry: the attributes its class body defines
(`src/imagen/flux.py`). -/
def FluxClient : PyClass :=
  ⟨"FluxClient", ["Config", "__init__", "generate_image", "readme"]⟩

/-- `RunpodNanoBananaClient` as a registry entry: the attributes its class
body defines (`src/imagen/runpod_nanobanana.py`). -/
def RunpodNanoBananaClient : PyClass :=
  ⟨"RunpodNanoBananaClient", ["Config", "__init__", "edit_image", "readme"]⟩

/-- The registration calls performed by the import-time module discovery in
`src/registery.py`: module `flux` registers under `"flux"`, module
`runpod_nanobanana` under `"nanobanana"` (modules are visited in name
order). -/
def registrationCalls : List (String × PyClass) :=
  [("flux", FluxClient), ("nanobanana", RunpodNanoBananaClient)]

/-- The populated `REGISTERED_GENERATORS` dict. -/
def REGISTERED_GENERATORS : Dict PyClass :=
  registryOf registrationCalls

/-! ### `src/main.py` — capability introspection and the image-list tool -/

/-- `_is_overridden(cls, method_name)`: membership of the method name in the
class body's own attribute names. -/
def _is_overridden (cls : PyClass) (method_name : String) : Bool :=
  decide (method_name ∈ cls.ownAttrs)

/-- The capability flags reported per backend by the `image-list` tool. -/
structure Capabilities where
  generate : Bool
  edit : Bool
deriving DecidableEq, Repr

/-- The `image-list` tool body (`list_generators` in `src/main.py`),
restricted to the capability flags it reports per registered name. -/
def list_generators (generators : Dict PyClass) : Dict Capabilities :=
  generators.map (fun p =>
    (p.1, ⟨_is_overridden p.2 "generate_image", _is_overridden p.2 "edit_image"⟩))

theorem registryOf_eq_extend (calls : List (String × PyClass)) :
    registryOf calls = pyDictExtend [] calls := rfl

/-- C9: every `register(name, type)` call inserts a new entry or overwrites
the existing one, the value stored for a name is the one of the last
registration (last wins), registering never removes an entry, and the
mapping's key order is the registration order (each name at its first
registration). -/
theorem registry_register_C9 (calls more : List (String × PyClass)) :
    keys (registryOf calls) = firstDedup (calls.map Prod.fst)
    ∧ (∀ nm, alookup nm (registryOf calls) = lastVal nm calls)
    ∧ (∀ nm, nm ∈ keys (registryOf calls) → nm ∈ keys (registryOf (calls ++ more))) := by
  refine ⟨?_, ?_, ?_⟩
  · rw [registryOf_eq_extend, keys_pyDictExtend]
    simp
  · intro nm
    rw [registryOf_eq_extend, alookup_pyDictExtend]
    cases lastVal nm calls <;> rfl
  · intro nm h
    rw [registryOf_eq_extend, keys_pyDictExtend] at h ⊢
    simp only [keys_nil, List.nil_append, List.not_mem_nil, not_false_iff,
      decide_True, List.filter_true] at h ⊢
    rw [mem_firstDedup] at h ⊢
    rw [List.map_append]
    exact List.mem_append_left _ h

/-- Witness for C9 at the repository's registration sequence: a duplicate
later registration does not remove the `"flux"` entry. -/
theorem registry_register_C9_witness :
    "flux" ∈ keys (registryOf (registrationCalls ++ [("nanobanana", FluxClient)])) :=
  (registry_register_C9 registrationCalls [("nanobanana", FluxClient)]).2.2 "flux" (by decide)

/-- C8: the image-list output has exactly the registered names as keys, and
for each registered backend the reported `generate` (resp. `edit`) flag is
true iff the backend's class itself defines `generate_image` (resp.
`edit_image`); instantiated on the repository's registry, flux reports
generate-only and nanobanana edit-only. -/
theorem list_generators_C8 (gens : Dict PyClass) :
    keys (list_generators gens) = keys gens
    ∧ (∀ nm cls, (nm, cls) ∈ gens →
        (nm, (⟨_is_overridden cls "generate_image", _is_overridden cls "edit_image"⟩ : Capabilities))
            ∈ list_generators gens
          ∧ (_is_overridden cls "generate_image" = true ↔ "generate_image" ∈ cls.ownAttrs)
          ∧ (_is_overridden cls "edit_image" = true ↔ "edit_image" ∈ cls.ownAttrs))
    ∧ list_generators REGISTERED_GENERATORS =
        [("flux", ⟨true, false⟩), ("nanobanana", ⟨false, true⟩)] := by
  refine ⟨?_, ?_, by decide⟩
  · simp only [keys, list_generators, List.map_map]
    rfl
  · intro nm cls h
    refine ⟨?_, ?_, ?_⟩
    · exact List.mem_map.mpr ⟨(nm, cls), h, rfl⟩
    · simp [_is_overridden]
    · simp [_is_overridden]

/-- Witness for C8: the flux entry of the image-list output, with its flags
matching the methods `FluxClient` itself defines. -/
theorem list_generators_C8_witness :
    ("flux", (⟨true, false⟩ : Capabilities)) ∈ list_generators REGISTERED_GENERATORS :=
  ((list_generators_C8 REGISTERED_GENERATORS).2.1 "flux" FluxClient (by decide)).1

/-! ### `src/main.py` — options construction from a caller payload -/

/-- A Python value as it appears in options payloads and field defaults. -/
inductive PyVal where
  | str (s : String)
  | int (n : Int)
  | bool (b : Bool)
  | strList (l : List String)
  | pyNone
deriving DecidableEq, Repr

/-- One declared dataclass field: its name and its declared default (or the
result of its default factory), when one is declared. -/
structure DField where
  name : String
  default : Option PyVal
deriving DecidableEq, Repr

/-- `_defaults_from_dataclass`: the dict of declared defaults, built in field
declaration order, skipping fields without a default. -/
def _defaults_from_dataclass (fs : List DField) : Dict PyVal :=
  fs.foldl (fun out f =>
    match f.default with
    | some v => pyDictSet out f.name v
    | none => out) []

/-- The dict merge of the declared defaults (lowest precedence) with the
caller payload (highest precedence), as built by `_build_options_object`. -/
def mergedOptions (fs : List DField) (payload : Dict PyVal) : Dict PyVal :=
  pyDictExtend (_defaults_from_dataclass fs) payload

/-- How the dataclass constructor call inside `_build_options_object` fails:
a `TypeError` either for required arguments that are absent from the merge
(listed in declaration order) or for a keyword that is not a declared
field. -/
inductive BuildError where
  | missingRequiredField (names : List String)
  | unexpectedKeyword (name : String)
deriving DecidableEq, Repr

/-- The options object the dataclass constructor produces from the merged
keyword arguments: every declared field bound to its merged value, in field
declaration order. -/
def objOf (fs : List DField) (m : Dict PyVal) : Dict PyVal :=
  fs.filterMap (fun f => (alookup f.name m).map (fun v => (f.name, v)))

/-- `_build_options_object` (dataclass branch): merge the declared defaults
with the payload and call the dataclass constructor on the merge.  The
constructor rejects keywords that are not declared fields, requires a value
for every field (reporting the absent ones in declaration order), and
otherwise binds every field to its merged value. -/
def _build_options_object (fs : List DField) (payload : Dict PyVal) :
    Except BuildError (Dict PyVal) :=
  match (keys (mergedOptions fs payload)).find? (fun k => !fs.any (fun f => f.name = k)) with
  | some k => .error (.unexpectedKeyword k)
  | none =>
    if ((fs.filter (fun f => (alookup f.name (mergedOptions fs payload)).isNone)).map DField.name).isEmpty then
      .ok (objOf fs (mergedOptions fs payload))
    else
      .error (.missingRequiredField
        ((fs.filter (fun f => (alookup f.name (mergedOptions fs payload)).isNone)).map DField.name))

theorem alookup_defaults_foldl_of_ne (k : String) (fs : List DField) (d : Dict PyVal)
    (h : ∀ f ∈ fs, f.name ≠ k) :
    alookup k (fs.foldl (fun out f =>
      match f.default with
      | some v => pyDictSet out f.name v
      | none => out) d) = alookup k d := by
  induction fs generalizing d with
  | nil => rfl
  | cons g fs ih =>
    simp only [List.foldl_cons]
    rw [ih _ (fun f hf => h f (List.mem_cons_of_mem g hf))]
    cases hg : g.default with
    | none => rfl
    | some v => exact alookup_pyDictSet_ne (h g (List.mem_cons_self g fs)) v d

theorem alookup_defaults_foldl (fs : List DField) (hnd : (fs.map DField.name).Nodup)
    {f : DField} (hf : f ∈ fs) (d : Dict PyVal) :
    alookup f.name (fs.foldl (fun out f2 =>
      match f2.default with
      | some v => pyDictSet out f2.name v
      | none => out) d) =
      match f.default with
      | some v => some v
      | none => alookup f.name d := by
  induction fs generalizing d f with
  | nil => cases hf
  | cons g fs ih =>
    simp only [List.map_cons, List.nodup_cons] at hnd
    rcases List.mem_cons.mp hf with rfl | hf2
    · simp only [List.foldl_cons]
      have hne : ∀ f2 ∈ fs, f2.name ≠ f.name := by
        intro f2 h2 hEq
        exact hnd.1 (hEq ▸ List.mem_map_of_mem DField.name h2)
      rw [alookup_defaults_foldl_of_ne _ _ _ hne]
      cases hd : f.default with
      | none => simp [hd]
      | some v => simp [hd, alookup_pyDictSet_self]
    · simp only [List.foldl_cons]
      rw [ih hnd.2 hf2]
      have hgne : g.name ≠ f.name := by
        intro hEq
        exact hnd.1 (hEq ▸ List.mem_map_of_mem DField.name hf2)
      cases hd : f.default with
      | some v => rfl
      | none =>
        cases hg : g.default with
        | none => rfl
        | some w => simp [alookup_pyDictSet_ne hgne]

theorem alookup_defaults (fs : List DField) (hnd : (fs.map DField.name).Nodup)
    {f : DField} (hf : f ∈ fs) :
    alookup f.name (_defaults_from_dataclass fs) = f.default := by
  unfold _defaults_from_dataclass
  rw [alookup_defaults_foldl fs hnd hf]
  cases f.default <;> rfl

theorem mem_keys_pyDictSet {α : Type} {k k2 : String} {v : α} {d : Dict α}
    (h : k ∈ keys (pyDictSet d k2 v)) : k ∈ keys d ∨ k = k2 := by
  by_cases h2 : k2 ∈ keys d
  · rw [keys_pyDictSet_of_mem h2] at h
    exact Or.inl h
  · rw [keys_pyDictSet_of_not_mem h2] at h
    rcases List.mem_append.mp h with h3 | h3
    · exact Or.inl h3
    · exact Or.inr (by simpa using h3)

theorem mem_keys_defaults_foldl {k : String} (fs : List DField) (d : Dict PyVal)
    (h : k ∈ keys (fs.foldl (fun out f2 =>
      match f2.default with
      | some v => pyDictSet out f2.name v
      | none => out) d)) : k ∈ keys d ∨ ∃ f ∈ fs, f.name = k := by
  induction fs generalizing d with
  | nil => exact Or.inl h
  | cons g fs ih =>
    simp only [List.foldl_cons] at h
    rcases ih _ h with h2 | h2
    · cases hg : g.default with
      | none =>
        rw [hg] at h2
        exact Or.inl h2
      | some v =>
        rw [hg] at h2
        rcases mem_keys_pyDictSet h2 with h3 | h3
        · exact Or.inl h3
        · exact Or.inr ⟨g, List.mem_cons_self g fs, h3.symm⟩
    · obtain ⟨f, hf, hfk⟩ := h2
      exact Or.inr ⟨f, List.mem_cons_of_mem g hf, hfk⟩

theorem mem_keys_defaults {k : String} {fs : List DField}
    (h : k ∈ keys (_defaults_from_dataclass fs)) : ∃ f ∈ fs, f.name = k := by
  unfold _defaults_from_dataclass at h
  rcases mem_keys_defaults_foldl fs [] h with h2 | h2
  · cases h2
  · exact h2

theorem lastVal_eq_none_of_not_mem {α : Type} {k : String} {l : List (String × α)}
    (h : k ∉ keys l) : lastVal k l = none := by
  induction l with
  | nil => rfl
  | cons p l ih =>
    obtain ⟨k2, v⟩ := p
    simp only [keys_cons, List.mem_cons] at h
    push_neg at h
    simp [lastVal, ih h.2, if_neg (Ne.symm h.1)]

theorem lastVal_eq_alookup {α : Type} {l : List (String × α)}
    (hnd : (keys l).Nodup) (k : String) : lastVal k l = alookup k l := by
  induction l with
  | nil => rfl
  | cons p l ih =>
    obtain ⟨k2, v⟩ := p
    simp only [keys_cons, List.nodup_cons] at hnd
    by_cases h2 : k2 = k
    · subst h2
      simp [lastVal, lastVal_eq_none_of_not_mem hnd.1]
    · simp only [lastVal, ih hnd.2, alookup_cons, if_neg h2]
      cases alookup k l <;> rfl

theorem alookup_merged (fs : List DField) (payload : Dict PyVal)
    (hnd : (fs.map DField.name).Nodup) (hpd : (keys payload).Nodup)
    {f : DField} (hf : f ∈ fs) :
    alookup f.name (mergedOptions fs payload) =
      match alookup f.name payload with
      | some v => some v
      | none => f.default := by
  unfold mergedOptions
  rw [alookup_pyDictExtend, lastVal_eq_alookup hpd, alookup_defaults fs hnd hf]
  cases alookup f.name payload <;> rfl

theorem mem_keys_merged {fs : List DField} {payload : Dict PyVal} {k : String}
    (h : k ∈ keys (mergedOptions fs payload)) :
    k ∈ keys (_defaults_from_dataclass fs) ∨ k ∈ keys payload := by
  unfold mergedOptions at h
  rw [keys_pyDictExtend] at h
  rcases List.mem_append.mp h with h2 | h2
  · exact Or.inl h2
  · rw [mem_firstDedup] at h2
    have h3 := List.of_mem_filter h2
    have h4 := List.mem_of_mem_filter h2
    exact Or.inr (by
      rcases List.mem_map.mp h4 with ⟨p, hp, hpk⟩
      exact hpk ▸ List.mem_map_of_mem Prod.fst hp)

theorem mem_names_of_mem_keys_objOf {k : String} {fs : List DField} {m : Dict PyVal}
    (h : k ∈ keys (objOf fs m)) : k ∈ fs.map DField.name := by
  induction fs with
  | nil => cases h
  | cons g fs ih =>
    unfold objOf at h ih
    rw [List.filterMap_cons] at h
    cases halk : alookup g.name m with
    | none =>
      simp only [halk, Option.map_none'] at h
      exact List.mem_cons_of_mem _ (ih h)
    | some v =>
      simp only [halk, Option.map_some', keys_cons] at h
      rcases List.mem_cons.mp h with h2 | h2
      · rw [List.map_cons]
        exact h2 ▸ List.mem_cons_self _ _
      · exact List.mem_cons_of_mem _ (ih h2)

theorem alookup_objOf (fs : List DField) (hnd : (fs.map DField.name).Nodup)
    {f : DField} (hf : f ∈ fs) (m : Dict PyVal) :
    alookup f.name (objOf fs m) = alookup f.name m := by
  induction fs with
  | nil => cases hf
  | cons g fs ih =>
    simp only [List.map_cons, List.nodup_cons] at hnd
    unfold objOf
    rw [List.filterMap_cons]
    rcases List.mem_cons.mp hf with rfl | hf2
    · cases halk : alookup f.name m with
      | some v => simp [halk]
      | none =>
        simp only [halk, Option.map_none']
        have : f.name ∉ keys (objOf fs m) := fun hmem =>
          hnd.1 (mem_names_of_mem_keys_objOf hmem)
        exact alookup_eq_none_of_not_mem this
    · have hgne : g.name ≠ f.name := by
        intro hEq
        exact hnd.1 (hEq ▸ List.mem_map_of_mem DField.name hf2)
      cases halk : alookup g.name m with
      | some v =>
        simp only [halk, Option.map_some', alookup_cons, if_neg hgne]
        exact ih hnd.2 hf2
      | none =>
        simp only [halk, Option.map_none']
        exact ih hnd.2 hf2

theorem head?_filter {α : Type} (p : α → Bool) (l : List α) :
    (l.filter p).head? = l.find? p := by
  induction l with
  | nil => rfl
  | cons a l ih =>
    cases ha : p a
    · rw [List.filter_cons_of_neg (by simp [ha]), List.find?_cons_of_neg _ (by simp [ha])]
      exact ih
    · rw [List.filter_cons_of_pos (by simp [ha]), List.find?_cons_of_pos _ (by simp [ha])]
      rfl

theorem find?_congr_mem {α : Type} {p q : α → Bool} (l : List α)
    (h : ∀ a ∈ l, p a = q a) : l.find? p = l.find? q := by
  induction l with
  | nil => rfl
  | cons a l ih =>
    have ha := h a (List.mem_cons_self a l)
    cases hpa : p a
    · rw [List.find?_cons_of_neg _ (by simp [hpa]), List.find?_cons_of_neg _ (by simp [← ha, hpa])]
      exact ih (fun b hb => h b (List.mem_cons_of_mem a hb))
    · rw [List.find?_cons_of_pos _ (by simp [hpa]), List.find?_cons_of_pos _ (by simp [← ha, hpa])]

theorem find_unexpected_none (fs : List DField) (payload : Dict PyVal)
    (hpay : ∀ k ∈ keys payload, ∃ f ∈ fs, f.name = k) :
    (keys (mergedOptions fs payload)).find? (fun k => !fs.any (fun f => f.name = k)) = none := by
  rw [List.find?_eq_none]
  intro k hk
  simp only [Bool.not_eq_true', Bool.not_eq_false, List.any_eq_true, decide_eq_true_eq]
  rcases mem_keys_merged hk with h | h
  · rcases mem_keys_defaults h with ⟨f, hf, hfk⟩
    exact ⟨f, hf, hfk⟩
  · exact hpay k h

theorem mergedOptions_nil (fs : List DField) :
    mergedOptions fs [] = _defaults_from_dataclass fs := rfl

/-- C3: with an empty payload, options construction succeeds iff every
declared field has a default; and whenever some field without a default is
absent from the merge of defaults and payload, construction fails with the
missing-required-field error whose first reported name is the first such
field in declaration order. -/
theorem build_options_C3 (fs : List DField) (payload : Dict PyVal)
    (hnd : (fs.map DField.name).Nodup)
    (hpd : (keys payload).Nodup)
    (hpay : ∀ k ∈ keys payload, ∃ f ∈ fs, f.name = k) :
    ((∃ obj, _build_options_object fs [] = Except.ok obj) ↔ ∀ f ∈ fs, f.default.isSome)
    ∧ ((∃ f ∈ fs, f.default = none ∧ alookup f.name (mergedOptions fs payload) = none) →
        ∃ names,
          _build_options_object fs payload = Except.error (BuildError.missingRequiredField names)
          ∧ names.head? = (fs.find? (fun f =>
              f.default.isNone && (alookup f.name (mergedOptions fs payload)).isNone)).map DField.name
          ∧ names ≠ []) := by
  have hpdnil : (keys ([] : Dict PyVal)).Nodup := List.nodup_nil
  constructor
  · have hfind := find_unexpected_none fs [] (fun k hk => absurd hk (List.not_mem_nil k))
    unfold _build_options_object
    rw [hfind]
    by_cases hc : ((fs.filter (fun f =>
        (alookup f.name (mergedOptions fs [])).isNone)).map DField.name).isEmpty = true
    · rw [if_pos hc]
      rw [List.isEmpty_iff, List.map_eq_nil_iff, List.filter_eq_nil_iff] at hc
      constructor
      · intro _ f hf
        have h2 := hc f hf
        rw [mergedOptions_nil, alookup_defaults fs hnd hf] at h2
        cases hd : f.default with
        | none => rw [hd] at h2; simp at h2
        | some v => rfl
      · intro _
        exact ⟨_, rfl⟩
    · rw [if_neg hc]
      constructor
      · rintro ⟨obj, hobj⟩
        exact Except.noConfusion hobj
      · intro hall
        exfalso
        apply hc
        rw [List.isEmpty_iff, List.map_eq_nil_iff, List.filter_eq_nil_iff]
        intro f hf
        rw [mergedOptions_nil, alookup_defaults fs hnd hf]
        have hs := hall f hf
        cases hd : f.default with
        | none => rw [hd] at hs; simp at hs
        | some v => simp
  · intro hmiss
    obtain ⟨f0, hf0, hd0, hm0⟩ := hmiss
    have hfind := find_unexpected_none fs payload hpay
    unfold _build_options_object
    rw [hfind]
    have hfil : f0 ∈ fs.filter (fun f => (alookup f.name (mergedOptions fs payload)).isNone) :=
      List.mem_filter.mpr ⟨hf0, by simp [hm0]⟩
    have hne : fs.filter (fun f => (alookup f.name (mergedOptions fs payload)).isNone) ≠ [] :=
      List.ne_nil_of_mem hfil
    have hc : ¬ ((fs.filter (fun f =>
        (alookup f.name (mergedOptions fs payload)).isNone)).map DField.name).isEmpty = true := by
      rw [List.isEmpty_iff, List.map_eq_nil_iff]
      exact hne
    rw [if_neg hc]
    refine ⟨_, rfl, ?_, ?_⟩
    · rw [List.head?_map, head?_filter]
      congr 1
      apply find?_congr_mem
      intro f hf
      cases hlk : alookup f.name (mergedOptions fs payload) with
      | some v => simp [hlk]
      | none =>
        have hdn : f.default = none := by
          have hm := alookup_merged fs payload hnd hpd hf
          rw [hlk] at hm
          cases hp : alookup f.name payload with
          | some w => rw [hp] at hm; simp at hm
          | none => rw [hp] at hm; exact hm.symm
        simp [hlk, hdn]
    · rw [Ne, List.map_eq_nil_iff]
      exact hne

/-- The declared fields of `FluxImageGeneratorOptions` in `src/imagen/flux.py`:
`prompt` has no default, `model` defaults to `"flux-2-max"`, `aspect_ratio`
defaults to `"1:1"`. -/
def FluxImageGeneratorOptionsFields : List DField :=
  [⟨"prompt", none⟩, ⟨"model", some (.str "flux-2-max")⟩, ⟨"aspect_ratio", some (.str "1:1")⟩]

/-- Witness for C3 at the flux generation options with an empty payload:
construction fails naming `prompt` first. -/
theorem build_options_C3_witness :
    ∃ names,
      _build_options_object FluxImageGeneratorOptionsFields [] =
        Except.error (BuildError.missingRequiredField names)
      ∧ names.head? = (FluxImageGeneratorOptionsFields.find? (fun f =>
          f.default.isNone
            && (alookup f.name (mergedOptions FluxImageGeneratorOptionsFields [])).isNone)).map
          DField.name
      ∧ names ≠ [] :=
  (build_options_C3 FluxImageGeneratorOptionsFields [] (by decide) List.nodup_nil
      (fun k hk => absurd hk (List.not_mem_nil k))).2
    ⟨⟨"prompt", none⟩, by decide, rfl, by decide⟩

/-- C4: a successfully constructed options object binds every
payload-supplied field to the supplied value and every unsupplied field to
its declared default, and construction from the same payload is
deterministic. -/
theorem build_options_C4 (fs : List DField) (payload : Dict PyVal) (obj : Dict PyVal)
    (hnd : (fs.map DField.name).Nodup)
    (hpd : (keys payload).Nodup)
    (hok : _build_options_object fs payload = Except.ok obj) :
    (∀ f ∈ fs, ∀ v, alookup f.name payload = some v → alookup f.name obj = some v)
    ∧ (∀ f ∈ fs, alookup f.name payload = none → alookup f.name obj = f.default)
    ∧ (∀ obj2, _build_options_object fs payload = Except.ok obj2 → obj2 = obj) := by
  have hobj : obj = objOf fs (mergedOptions fs payload) := by
    unfold _build_options_object at hok
    split at hok
    · exact Except.noConfusion hok
    · split at hok
      · exact (Except.ok.inj hok).symm
      · exact Except.noConfusion hok
  refine ⟨?_, ?_, ?_⟩
  · intro f hf v hv
    rw [hobj, alookup_objOf fs hnd hf, alookup_merged fs payload hnd hpd hf, hv]
  · intro f hf hv
    rw [hobj, alookup_objOf fs hnd hf, alookup_merged fs payload hnd hpd hf, hv]
  · intro obj2 h2
    rw [hok] at h2
    exact (Except.ok.inj h2).symm

/-- A flux generation payload supplying only the prompt. -/
def fluxPayloadEx : Dict PyVal := [("prompt", .str "a red apple")]

/-- The options object built from `fluxPayloadEx`. -/
def fluxObjEx : Dict PyVal :=
  [("prompt", .str "a red apple"), ("model", .str "flux-2-max"), ("aspect_ratio", .str "1:1")]

/-- Witness for C4: supplied `prompt` overrides, unsupplied `model` keeps its
declared default. -/
theorem build_options_C4_witness :
    alookup "model" fluxObjEx = some (PyVal.str "flux-2-max")
    ∧ alookup "prompt" fluxObjEx = some (PyVal.str "a red apple") := by
  have h := build_options_C4 FluxImageGeneratorOptionsFields fluxPayloadEx fluxObjEx
    (by decide) (by decide) rfl
  exact ⟨h.2.1 ⟨"model", some (.str "flux-2-max")⟩ (by decide) (by decide),
    h.1 ⟨"prompt", none⟩ (by decide) (PyVal.str "a red apple") (by decide)⟩

/-! ### `src/utils/utils.py` — nearest aspect ratio selection -/

/-- An allowed aspect-ratio string of the form `"w:h"`, in parsed form
(`map(int, ratio_str.split(":"))`). -/
structure Ratio where
  rw : Nat
  rh : Nat
deriving DecidableEq, Repr

/-- `ratio_value`: the width/height quotient of an allowed ratio; Python
float division is modelled by exact rational division. -/
def ratio_value (r : Ratio) : ℚ :=
  (r.rw : ℚ) / (r.rh : ℚ)

/-- The key minimized inside `get_nearest_aspect_ratio`:
`abs(ratio_value(r) - target_ratio)` for `target_ratio = w / h`. -/
def ratioDist (size : Nat × Nat) (r : Ratio) : ℚ :=
  |ratio_value r - (size.1 : ℚ) / (size.2 : ℚ)|

/-- Python `min(iterable, key=f)`: scan the list, replacing the current best
only when the new element's key is strictly smaller, so the first minimal
element wins. -/
def pyMin (f : Ratio → ℚ) : Ratio → List Ratio → Ratio
  | best, [] => best
  | best, x :: xs => if f x < f best then pyMin f x xs else pyMin f best xs

/-- `get_nearest_aspect_ratio(size, allowed_ratios)`; `none` stands for the
`ValueError` Python `min` raises on an empty sequence. -/
def get_nearest_aspect_ratio (size : Nat × Nat) (allowed_ratios : List Ratio) : Option Ratio :=
  match allowed_ratios with
  | [] => none
  | a :: rest => some (pyMin (ratioDist size) a rest)

theorem pyMin_mem (f : Ratio → ℚ) (a : Ratio) (l : List Ratio) :
    pyMin f a l ∈ a :: l := by
  induction l generalizing a with
  | nil => simp [pyMin]
  | cons x xs ih =>
    simp only [pyMin]
    by_cases h : f x < f a
    · rw [if_pos h]
      exact List.mem_cons_of_mem a (ih x)
    · rw [if_neg h]
      rcases List.mem_cons.mp (ih a) with h2 | h2
      · exact List.mem_cons.mpr (Or.inl h2)
      · exact List.mem_cons_of_mem a (List.mem_cons_of_mem x h2)

theorem pyMin_le (f : Ratio → ℚ) (a : Ratio) (l : List Ratio) :
    ∀ y ∈ a :: l, f (pyMin f a l) ≤ f y := by
  induction l generalizing a with
  | nil =>
    intro y hy
    rcases List.mem_cons.mp hy with rfl | h2
    · simp [pyMin]
    · cases h2
  | cons x xs ih =>
    intro y hy
    simp only [pyMin]
    by_cases h : f x < f a
    · rw [if_pos h]
      rcases List.mem_cons.mp hy with hya | hy2
      · rw [hya]
        exact le_trans (ih x x (List.mem_cons_self x xs)) (le_of_lt h)
      · exact ih x y hy2
    · rw [if_neg h]
      rcases List.mem_cons.mp hy with hya | hy2
      · rw [hya]
        exact ih a a (List.mem_cons_self a xs)
      · rcases List.mem_cons.mp hy2 with hyx | hy3
        · rw [hyx]
          exact le_trans (ih a a (List.mem_cons_self a xs)) (not_lt.mp h)
        · exact ih a y (List.mem_cons_of_mem a hy3)

theorem pyMin_decomp (f : Ratio → ℚ) (a : Ratio) (l : List Ratio) :
    ∃ l₁ l₂, a :: l = l₁ ++ pyMin f a l :: l₂
      ∧ ∀ y ∈ l₁, f (pyMin f a l) < f y := by
  induction l generalizing a with
  | nil => exact ⟨[], [], by simp [pyMin], by simp⟩
  | cons x xs ih =>
    by_cases h : f x < f a
    · obtain ⟨l₁, l₂, heq, hlt⟩ := ih x
      refine ⟨a :: l₁, l₂, ?_, ?_⟩
      · simp only [pyMin, if_pos h]
        rw [List.cons_append, ← heq]
      · intro y hy
        simp only [pyMin, if_pos h]
        rcases List.mem_cons.mp hy with rfl | hy2
        · exact lt_of_le_of_lt (pyMin_le f x xs x (List.mem_cons_self x xs)) h
        · exact hlt y hy2
    · obtain ⟨l₁, l₂, heq, hlt⟩ := ih a
      cases l₁ with
      | nil =>
        rw [List.nil_append] at heq
        injection heq with h1 h2
        refine ⟨[], x :: xs, ?_, by simp⟩
        simp only [pyMin, if_neg h]
        rw [List.nil_append, ← h1]
      | cons b l₁ =>
        rw [List.cons_append] at heq
        injection heq with h1 h2
        refine ⟨a :: x :: l₁, l₂, ?_, ?_⟩
        · simp only [pyMin, if_neg h]
          rw [List.cons_append, List.cons_append, ← h2]
        · intro y hy
          simp only [pyMin, if_neg h]
          have hma : f (pyMin f a xs) < f a := h1 ▸ hlt b (List.mem_cons_self b l₁)
          rcases List.mem_cons.mp hy with rfl | hy2
          · exact hma
          · rcases List.mem_cons.mp hy2 with rfl | hy3
            · exact lt_of_lt_of_le hma (not_lt.mp h)
            · exact hlt y (List.mem_cons_of_mem b hy3)

theorem find?_split {α : Type} (p : α → Bool) (l₁ l₂ : List α) (m : α)
    (h1 : ∀ y ∈ l₁, p y = false) (h2 : p m = true) :
    (l₁ ++ m :: l₂).find? p = some m := by
  induction l₁ with
  | nil =>
    rw [List.nil_append]
    exact List.find?_cons_of_pos _ h2
  | cons b l₁ ih =>
    rw [List.cons_append,
      List.find?_cons_of_neg _ (by simp [h1 b (List.mem_cons_self b l₁)])]
    exact ih (fun y hy => h1 y (List.mem_cons_of_mem b hy))

theorem find?_first_min (f : Ratio → ℚ) (a : Ratio) (l : List Ratio) :
    (a :: l).find? (fun x => (a :: l).all (fun y => f x ≤ f y)) = some (pyMin f a l) := by
  obtain ⟨l₁, l₂, heq, hlt⟩ := pyMin_decomp f a l
  have hmem : pyMin f a l ∈ a :: l := pyMin_mem f a l
  have hle := pyMin_le f a l
  rw [heq]
  apply find?_split
  · intro y hy
    have hy2 : f (pyMin f a l) < f y := hlt y hy
    rw [Bool.eq_false_iff]
    intro hall
    rw [List.all_eq_true] at hall
    have h3 := hall (pyMin f a l)
      (List.mem_append_right l₁ (List.mem_cons_self _ _))
    rw [decide_eq_true_eq] at h3
    exact absurd hy2 (not_lt.mpr h3)
  · show List.all _ _ = true
    rw [List.all_eq_true]
    intro z hz
    rw [decide_eq_true_eq]
    have hz2 : z ∈ a :: l := by rw [heq]; exact hz
    exact hle z hz2

/-- C5: nearest-aspect-ratio selection returns an allowed ratio whose
width/height quotient minimizes the distance to the source quotient, the
first minimal element of the enumeration winning ties; on (1920, 1080) with
allowed ratios 1:1, 16:9, 9:16 it selects 16:9, and on (1000, 1000) it
selects 1:1. -/
theorem nearest_aspect_ratio_C5 (w h : Nat) (hh : 0 < h)
    (allowed : List Ratio) (hne : allowed ≠ []) :
    (∃ r, get_nearest_aspect_ratio (w, h) allowed = some r
      ∧ r ∈ allowed
      ∧ (∀ y ∈ allowed, ratioDist (w, h) r ≤ ratioDist (w, h) y)
      ∧ allowed.find? (fun x =>
          allowed.all (fun y => ratioDist (w, h) x ≤ ratioDist (w, h) y)) = some r)
    ∧ get_nearest_aspect_ratio (1920, 1080) [⟨1, 1⟩, ⟨16, 9⟩, ⟨9, 16⟩] = some ⟨16, 9⟩
    ∧ get_nearest_aspect_ratio (1000, 1000) [⟨1, 1⟩, ⟨16, 9⟩, ⟨9, 16⟩] = some ⟨1, 1⟩ := by
  refine ⟨?_,
    by norm_num [get_nearest_aspect_ratio, pyMin, ratioDist, ratio_value, abs_div, Nat.abs_ofNat],
    by norm_num [get_nearest_aspect_ratio, pyMin, ratioDist, ratio_value, abs_div, Nat.abs_ofNat]⟩
  match allowed, hne with
  | a :: rest, _ =>
    exact ⟨pyMin (ratioDist (w, h)) a rest, rfl, pyMin_mem _ a rest,
      pyMin_le _ a rest, find?_first_min _ a rest⟩

/-- Witness for C5 at the documented example size (1920, 1080). -/
theorem nearest_aspect_ratio_C5_witness :
    ∃ r, get_nearest_aspect_ratio (1920, 1080) [⟨1, 1⟩, ⟨16, 9⟩, ⟨9, 16⟩] = some r
      ∧ r ∈ [⟨1, 1⟩, ⟨16, 9⟩, (⟨9, 16⟩ : Ratio)]
      ∧ (∀ y ∈ [⟨1, 1⟩, ⟨16, 9⟩, (⟨9, 16⟩ : Ratio)],
          ratioDist (1920, 1080) r ≤ ratioDist (1920, 1080) y)
      ∧ List.find? (fun x =>
          List.all [⟨1, 1⟩, ⟨16, 9⟩, (⟨9, 16⟩ : Ratio)]
            (fun y => ratioDist (1920, 1080) x ≤ ratioDist (1920, 1080) y))
          [⟨1, 1⟩, ⟨16, 9⟩, (⟨9, 16⟩ : Ratio)] = some r :=
  (nearest_aspect_ratio_C5 1920 1080 (by decide) [⟨1, 1⟩, ⟨16, 9⟩, ⟨9, 16⟩] (by decide)).1

/-! ### String helpers

Python string operations used by `src/utils/s3.py`, modelled on character
lists so that every concrete evaluation reduces. -/

/-- The characters after the last occurrence of `sep` (the whole list when
`sep` does not occur). -/
def afterLast (sep : Char) (cs : List Char) : List Char :=
  cs.foldl (fun acc c => if c = sep then [] else acc ++ [c]) []

/-- `PurePosixPath(urlparse(url).path).suffix` for a URL whose last path
segment is an ordinary file name: the query/fragment part is stripped, the
last `/`-separated segment is taken, and its extension (from the last dot,
dot included) is returned — empty when the segment has no dot. -/
def pathSuffix (url : String) : String :=
  let base := afterLast '/' (url.toList.takeWhile (fun c => c ≠ '?' ∧ c ≠ '#'))
  if base.contains '.' then String.mk ('.' :: afterLast '.' base) else ""

/-- Python `str.strip()`. -/
def pyStrip (s : String) : String :=
  String.mk ((s.toList.dropWhile Char.isWhitespace).reverse.dropWhile Char.isWhitespace).reverse

/-- Python `str.rstrip("/")`. -/
def rstripSlash (s : String) : String :=
  String.mk (s.toList.reverse.dropWhile (fun c => c = '/')).reverse

/-- Python `str.startswith(pre)`. -/
def pyStartsWith (s pre : String) : Bool :=
  pre.toList.isPrefixOf s.toList

/-! ### `src/utils/s3.py` — storage environment and URL re-publication -/

/-- The six storage environment variables (empty string = unset). -/
structure S3Env where
  endpoint_url : String
  access_key : String
  secret_key : String
  region : String
  cdn_url : String
  bucket : String
deriving DecidableEq, Repr

/-- The values of the `required_vars` list checked by
`validate_s3_env_vars`, in source order. -/
def required_env_values (e : S3Env) : List String :=
  [e.endpoint_url, e.access_key, e.secret_key, e.region, e.cdn_url, e.bucket]

/-- `validate_s3_env_vars`: `False` as soon as one variable is blank after
stripping, `True` otherwise. -/
def validate_s3_env_vars (e : S3Env) : Bool :=
  (required_env_values e).all (fun v => pyStrip v ≠ "")

/-- The boto3 client as configured by `create_s3_client`. -/
structure S3Client where
  endpoint_url : String
  region : String
  access_key : String
  secret_key : String
deriving DecidableEq, Repr

/-- `create_s3_client`: calls `validate_s3_env_vars` but discards its
boolean result (the call is annotated "Validate on creation" in the source),
then unconditionally builds the client from whatever the environment
holds — there is no failure path. -/
def create_s3_client (e : S3Env) : S3Client :=
  let _validated := validate_s3_env_vars e
  ⟨e.endpoint_url, e.region, e.access_key, e.secret_key⟩

/-- A network side effect performed during resolution or upload. -/
inductive NetCall where
  | pollGet (url : String)
  | download (url : String)
  | fetchGet (url : String)
  | putObject (bucket : String) (key : String)
deriving DecidableEq, Repr

/-- The one error `copy_url_to_s3` raises before touching the network: the
`ValueError` for a non-HTTP source URL. -/
inductive CopyError where
  | valueError (msg : String)
deriving DecidableEq, Repr

/-- `copy_url_to_s3(source_url)`, with the fresh `uuid4()` value the call
draws passed explicitly: create the client (no failure path), reject
non-HTTP source URLs, then download the asset and upload it under
`uuid + original extension`, returning the public URL built from the CDN
base (degenerate `"" + "/" + key` URL when the CDN base is blank). -/
def copy_url_to_s3 (e : S3Env) (uuid : String) (source_url : String) :
    Except CopyError (String × List NetCall) :=
  let _s3 := create_s3_client e
  if ¬ (pyStartsWith source_url "http://" = true ∨ pyStartsWith source_url "https://" = true) then
    .error (.valueError "source_url must be a valid HTTP/HTTPS URL")
  else
    let destination_key := uuid ++ pathSuffix source_url
    let public_url :=
      if e.cdn_url ≠ "" then rstripSlash e.cdn_url ++ "/" ++ destination_key
      else e.cdn_url ++ "/" ++ destination_key
    .ok (public_url, [NetCall.fetchGet source_url, NetCall.putObject e.bucket destination_key])

/-! ### `src/imagen/flux.py` — asynchronous polling backend -/

/-- One status payload the polling endpoint answers with: the `status`
field and the `result.sample` URL (read only when the status is Ready). -/
structure FluxPollResult where
  status : String
  sample : String
deriving DecidableEq, Repr

/-- The mutable attributes of a `FluxResponse` object. -/
structure FluxResponseState where
  image : Option String
  polling_url : Option String
  request_id : Option String
  retriveal_url : Option String
deriving DecidableEq, Repr

/-- `FluxResponse.__init__` applied to a creation-response body. -/
def FluxResponse_init (polling_url : Option String) (request_id : Option String) :
    FluxResponseState :=
  ⟨none, polling_url, request_id, none⟩

/-- `FluxResponse._pool`: one GET on the polling URL.  On `"Failed"` or
`"Error"` it returns `False`; on `"Ready"` it stores the result sample URL
and returns `True`; any other status returns `False`. -/
def _pool (s : FluxResponseState) (r : FluxPollResult) : FluxResponseState × Bool :=
  if r.status = "Failed" ∨ r.status = "Error" then (s, false)
  else if r.status = "Ready" then ({ s with retriveal_url := some r.sample }, true)
  else (s, false)

/-- `FluxResponse._retrieve_image`: downloads the stored result URL, if
any; the downloaded image is identified by its source URL. -/
def _retrieve_image (s : FluxResponseState) : FluxResponseState × List NetCall :=
  match s.retriveal_url with
  | some u => ({ s with image := some u }, [NetCall.download u])
  | none => (s, [])

/-- The outcome of `pool(auto=True)` against a finite sequence of poll
answers: a returned image, a raised error, or a loop that has consumed
every provided answer and is still polling (it would sleep one second and
poll again). -/
inductive PoolOutcome where
  | returned (image : Option String) (state : FluxResponseState)
      (calls : List NetCall) (sleeps : Nat)
  | raised (msg : String)
  | stillPolling (state : FluxResponseState) (calls : List NetCall) (sleeps : Nat)
deriving DecidableEq, Repr

/-- The `while not self._pool(): time.sleep(1)` loop followed by
`_retrieve_image`, driven by the sequence of poll answers; `sleeps` counts
the one-second `time.sleep(1)` calls performed so far. -/
def poolLoop (purl : String) (s : FluxResponseState) (calls : List NetCall) (sleeps : Nat) :
    List FluxPollResult → PoolOutcome
  | [] => .stillPolling s calls sleeps
  | r :: rs =>
    let step := _pool s r
    let calls2 := calls ++ [NetCall.pollGet purl]
    if step.2 then
      let retr := _retrieve_image step.1
      .returned retr.1.image retr.1 (calls2 ++ retr.2) sleeps
    else
      poolLoop purl step.1 calls2 (sleeps + 1) rs

/-- `FluxResponse.pool(auto=True)`: returns the cached image at once when
one is present, raises when no polling URL was provided, and otherwise
enters the polling loop. -/
def pool_auto (s : FluxResponseState) (rs : List FluxPollResult) : PoolOutcome :=
  if s.image.isSome then .returned s.image s [] 0
  else
    match s.polling_url with
    | none => .raised "No polling url found"
    | some purl => poolLoop purl s [] 0 rs

/-- The outcome of `FluxResponse.url()`. -/
inductive UrlOutcome where
  | ok (url : String) (state : FluxResponseState) (calls : List NetCall)
  | raised (msg : String)
  | stillPolling
deriving DecidableEq, Repr

/-- `FluxResponse.url()`: poll to completion, then pass
`self.retriveal_url` to `copy_url_to_s3`, drawing one fresh uuid. -/
def url_method (e : S3Env) (uuid : String) (s : FluxResponseState)
    (rs : List FluxPollResult) : UrlOutcome :=
  match pool_auto s rs with
  | .returned _ s2 pcalls _ =>
    match s2.retriveal_url with
    | none => .raised "AttributeError: NoneType has no attribute startswith"
    | some u =>
      match copy_url_to_s3 e uuid u with
      | .ok (pub, ccalls) => .ok pub s2 (pcalls ++ ccalls)
      | .error _ => .raised "ValueError: source_url must be a valid HTTP/HTTPS URL"
  | .raised m => .raised m
  | .stillPolling _ _ _ => .stillPolling

/-- The result of `FluxClient.generate_image`. -/
inductive FluxGenResult where
  | raised (msg : String)
  | pending (resp : FluxResponseState)
deriving DecidableEq, Repr

/-- `FluxClient.generate_image`: posts the creation request; only status
codes 429 and 402 are checked, every other status falls through to building
a `FluxResponse` from the body. -/
def generate_image (status_code : Nat) (polling_url : Option String)
    (request_id : Option String) : FluxGenResult :=
  if status_code = 429 then .raised "Rate limit exceeded"
  else if status_code = 402 then .raised "Out of credits"
  else .pending (FluxResponse_init polling_url request_id)

/-- The polling URL used in the concrete resolution runs. -/
def fluxPollingUrlEx : String := "https://api.bfl.ai/v1/get_result"

/-- A freshly created pending response. -/
def fluxPendingEx : FluxResponseState :=
  FluxResponse_init (some fluxPollingUrlEx) (some "rid")

/-- The delivery URL a Ready payload carries in the concrete runs. -/
def fluxSampleEx : String := "https://delivery.bfl.ai/res/img.png"

/-- C1: evaluation of the poll loop at the two reference status sequences.
With processing, processing, ready the loop resolves using the ready
payload's result URL after two one-second sleeps; with a sequence ending in
failed the loop treats the terminal failure exactly like "still processing":
it consumes the whole sequence without raising and keeps polling — no
generation-failed error exists on this path. -/
theorem flux_poll_C1 :
    pool_auto fluxPendingEx
        [⟨"Processing", ""⟩, ⟨"Processing", ""⟩, ⟨"Ready", fluxSampleEx⟩]
      = PoolOutcome.returned (some fluxSampleEx)
          ⟨some fluxSampleEx, some fluxPollingUrlEx, some "rid", some fluxSampleEx⟩
          [NetCall.pollGet fluxPollingUrlEx, NetCall.pollGet fluxPollingUrlEx,
            NetCall.pollGet fluxPollingUrlEx, NetCall.download fluxSampleEx] 2
    ∧ pool_auto fluxPendingEx [⟨"Processing", ""⟩, ⟨"Failed", ""⟩]
      = PoolOutcome.stillPolling fluxPendingEx
          [NetCall.pollGet fluxPollingUrlEx, NetCall.pollGet fluxPollingUrlEx] 2
    ∧ _pool fluxPendingEx ⟨"Failed", ""⟩ = (fluxPendingEx, false)
    ∧ _pool fluxPendingEx ⟨"Error", ""⟩ = (fluxPendingEx, false) := by
  refine ⟨?_, ?_, ?_, ?_⟩ <;> rfl

/-- The storage environment used in the concrete url() runs. -/
def s3EnvEx : S3Env :=
  ⟨"https://s3.example", "AK", "SK", "fr-par", "https://cdn.example.com", "images"⟩

/-- A response that has already resolved: the image is cached and the
backend result URL is stored. -/
def fluxResolvedEx : FluxResponseState :=
  ⟨some fluxSampleEx, some fluxPollingUrlEx, some "rid", some fluxSampleEx⟩

/-- C2 counterexample: calling `url()` twice on an already-resolved
response draws two distinct random keys, so the two calls return different
URLs, and the second call still performs network calls (a download and an
upload).  This refutes "returns a URL identical to the first call and
issues no additional network calls". -/
theorem flux_url_C2_counterexample :
    url_method s3EnvEx "u0" fluxResolvedEx []
      = UrlOutcome.ok "https://cdn.example.com/u0.png" fluxResolvedEx
          [NetCall.fetchGet fluxSampleEx, NetCall.putObject "images" "u0.png"]
    ∧ url_method s3EnvEx "u1" fluxResolvedEx []
      = UrlOutcome.ok "https://cdn.example.com/u1.png" fluxResolvedEx
          [NetCall.fetchGet fluxSampleEx, NetCall.putObject "images" "u1.png"]
    ∧ ("https://cdn.example.com/u0.png" : String) ≠ "https://cdn.example.com/u1.png"
    ∧ ([NetCall.fetchGet fluxSampleEx, NetCall.putObject "images" "u1.png"] : List NetCall) ≠ [] := by
  refine ⟨?_, ?_, by decide, by decide⟩ <;> rfl

/-- C2 amended: resolving an already-resolved response issues no poll and no
image download (the cached state short-circuits the loop), but it does
re-download and re-upload the asset through storage under the freshly drawn
random key, and the returned URL embeds that fresh key — it is not in
general the URL of the first call. -/
theorem flux_url_C2_amended (e : S3Env) (uuid : String) (s : FluxResponseState)
    (img u : String) (rs : List FluxPollResult)
    (himg : s.image = some img) (hret : s.retriveal_url = some u)
    (hhttp : pyStartsWith u "http://" = true ∨ pyStartsWith u "https://" = true)
    (hcdn : e.cdn_url ≠ "") :
    url_method e uuid s rs
      = UrlOutcome.ok (rstripSlash e.cdn_url ++ "/" ++ (uuid ++ pathSuffix u)) s
          [NetCall.fetchGet u, NetCall.putObject e.bucket (uuid ++ pathSuffix u)] := by
  unfold url_method pool_auto
  rw [himg]
  simp only [Option.isSome_some, if_true, hret]
  unfold copy_url_to_s3
  rw [if_neg (not_not_intro hhttp)]
  simp [hcdn]

/-- Witness for the amended C2 at the concrete resolved response. -/
theorem flux_url_C2_amended_witness :
    url_method s3EnvEx "u1" fluxResolvedEx []
      = UrlOutcome.ok (rstripSlash s3EnvEx.cdn_url ++ "/" ++ ("u1" ++ pathSuffix fluxSampleEx))
          fluxResolvedEx
          [NetCall.fetchGet fluxSampleEx,
            NetCall.putObject s3EnvEx.bucket ("u1" ++ pathSuffix fluxSampleEx)] :=
  flux_url_C2_amended s3EnvEx "u1" fluxResolvedEx fluxSampleEx fluxSampleEx []
    rfl rfl (Or.inr (by decide)) (by decide)

/-- C6 counterexample: a non-2xx status other than 429 and 402 — here
a 500 — is not rejected: `generate_image` returns a pending response built
from the body instead of failing with a backend error. -/
theorem flux_generate_C6_counterexample :
    generate_image 500 (some fluxPollingUrlEx) (some "rid")
      = FluxGenResult.pending (FluxResponse_init (some fluxPollingUrlEx) (some "rid")) := rfl

/-- C6 amended: HTTP 429 fails with the rate-limited error and HTTP 402
with the out-of-credits error, but no other status code is checked: every
other response — success or failure alike — produces a pending response
built from the body. -/
theorem flux_generate_C6_amended (status_code : Nat) (purl rid : Option String)
    (h429 : status_code ≠ 429) (h402 : status_code ≠ 402) :
    generate_image 429 purl rid = FluxGenResult.raised "Rate limit exceeded"
    ∧ generate_image 402 purl rid = FluxGenResult.raised "Out of credits"
    ∧ generate_image status_code purl rid = FluxGenResult.pending (FluxResponse_init purl rid) := by
  refine ⟨rfl, rfl, ?_⟩
  unfold generate_image
  rw [if_neg h429, if_neg h402]

/-- Witness for the amended C6 at status 500. -/
theorem flux_generate_C6_amended_witness :
    generate_image 429 none none = FluxGenResult.raised "Rate limit exceeded"
    ∧ generate_image 402 none none = FluxGenResult.raised "Out of credits"
    ∧ generate_image 500 none none = FluxGenResult.pending (FluxResponse_init none none) :=
  flux_generate_C6_amended 500 none none (by decide) (by decide)

/-- The all-blank storage environment. -/
def emptyS3Env : S3Env := ⟨"", "", "", "", "", ""⟩

/-- C7: evaluation at the failing input where every storage variable is
blank: the validation function reports the misconfiguration, but
`create_s3_client` discards its result and builds a client anyway, and
`copy_url_to_s3` proceeds all the way to the upload attempt, returning the
degenerate URL — no misconfigured-storage error is raised on any path (the
embedded functions have no such error case because the source has no such
raise). -/
theorem s3_misconfigured_C7 :
    validate_s3_env_vars emptyS3Env = false
    ∧ create_s3_client emptyS3Env = ⟨"", "", "", ""⟩
    ∧ copy_url_to_s3 emptyS3Env "u0" fluxSampleEx
      = Except.ok ("/u0.png", [NetCall.fetchGet fluxSampleEx, NetCall.putObject "" "u0.png"]) := by
  refine ⟨rfl, rfl, ?_⟩
  rfl

/-! ### `src/imagen/runpod_nanobanana.py` — synchronous edit backend -/

/-- The fields of `RunpodNanoBananaImageEditingOptions` an edit call reads
or writes. -/
structure NanoBananaOptions where
  prompt : String
  image_urls : List String
  resolution : String
  aspect_ratio : Option Ratio
deriving DecidableEq, Repr

/-- `get_literal_values(RunpodNanoBananaImageEditingOptions, "aspect_ratio")`:
the ten allowed ratios of the `Literal` annotation, in declaration order. -/
def nb_allowed_aspect_ratios : List Ratio :=
  [⟨1, 1⟩, ⟨3, 2⟩, ⟨2, 3⟩, ⟨3, 4⟩, ⟨4, 3⟩, ⟨4, 5⟩, ⟨5, 4⟩, ⟨9, 16⟩, ⟨16, 9⟩, ⟨21, 9⟩]

/-- A JSON value of the edit request body. -/
inductive JVal where
  | s (v : String)
  | list (v : List String)
  | b (v : Bool)
deriving DecidableEq, Repr

/-- The `input` object of the request body `edit_image` posts, built from
the (possibly mutated) options. -/
def nb_request_input (o : NanoBananaOptions) : List (String × JVal) :=
  [("prompt", .s o.prompt), ("images", .list o.image_urls), ("resolution", .s o.resolution),
    ("output_format", .s "jpeg"), ("enable_base64_output", .b false),
    ("enable_sync_mode", .b false)]

/-- `RunpodNanoBananaClient.edit_image`, up to the request it posts: when
`aspect_ratio` is unset, the first source image is downloaded and the
nearest allowed ratio to its pixel size is written back into the options
object (an `IndexError` escapes when there is no source image); the `input`
body is then built from the options.  `sizeOf` is the network oracle giving
each image URL its pixel dimensions. -/
def edit_image (sizeOf : String → Nat × Nat) (options : NanoBananaOptions) :
    Except String (List (String × JVal) × NanoBananaOptions) :=
  match options.aspect_ratio with
  | none =>
    match options.image_urls with
    | [] => .error "IndexError: list index out of range"
    | firstUrl :: _ =>
      let options2 := { options with
        aspect_ratio := get_nearest_aspect_ratio (sizeOf firstUrl) nb_allowed_aspect_ratios }
      .ok (nb_request_input options2, options2)
  | some _ => .ok (nb_request_input options, options)

/-- C10: the posted `input` object carries exactly the six keys prompt,
images, resolution, output_format, enable_base64_output, enable_sync_mode;
`aspect_ratio` is never one of them; and when the caller left the aspect
ratio unset the call mutates the caller-visible options object in place,
storing the ratio inferred from the first source image's dimensions, while
a caller-supplied ratio leaves the options untouched. -/
theorem nanobanana_edit_C10 (sizeOf : String → Nat × Nat) (options : NanoBananaOptions)
    (body : List (String × JVal)) (options2 : NanoBananaOptions)
    (hok : edit_image sizeOf options = Except.ok (body, options2)) :
    body.map Prod.fst =
      ["prompt", "images", "resolution", "output_format", "enable_base64_output",
        "enable_sync_mode"]
    ∧ "aspect_ratio" ∉ body.map Prod.fst
    ∧ (options.aspect_ratio = none →
        ∃ u rest, options.image_urls = u :: rest
          ∧ options2 = { options with
              aspect_ratio := get_nearest_aspect_ratio (sizeOf u) nb_allowed_aspect_ratios }
          ∧ body = nb_request_input options2)
    ∧ (∀ a, options.aspect_ratio = some a → options2 = options ∧ body = nb_request_input options) := by
  cases har : options.aspect_ratio with
  | some a =>
    unfold edit_image at hok
    rw [har] at hok
    have h2 := Except.ok.inj hok
    rw [Prod.mk.injEq] at h2
    obtain ⟨hb, ho⟩ := h2
    refine ⟨?_, ?_, ?_, ?_⟩
    · rw [← hb]
      rfl
    · rw [← hb]
      simp [nb_request_input]
    · intro hnone
      exact Option.noConfusion hnone
    · intro a2 _
      exact ⟨ho.symm, by rw [← hb, ho]⟩
  | none =>
    cases hurls : options.image_urls with
    | nil =>
      unfold edit_image at hok
      rw [har, hurls] at hok
      exact Except.noConfusion hok
    | cons u rest =>
      unfold edit_image at hok
      rw [har, hurls] at hok
      have h2 := Except.ok.inj hok
      rw [Prod.mk.injEq] at h2
      obtain ⟨hb, ho⟩ := h2
      refine ⟨?_, ?_, ?_, ?_⟩
      · rw [← hb]
        rfl
      · rw [← hb]
        simp [nb_request_input]
      · intro _
        exact ⟨u, rest, rfl, ho.symm, by rw [← ho, ← hb]⟩
      · intro a2 ha2
        exact Option.noConfusion ha2

/-- An edit options object with a caller-supplied aspect ratio. -/
def nbOptionsEx : NanoBananaOptions :=
  ⟨"make it pop", ["https://img.example/a.png"], "1k", some ⟨16, 9⟩⟩

/-- Witness for C10 at a concrete edit call. -/
theorem nanobanana_edit_C10_witness :
    (nb_request_input nbOptionsEx).map Prod.fst =
      ["prompt", "images", "resolution", "output_format", "enable_base64_output",
        "enable_sync_mode"] :=
  (nanobanana_edit_C10 (fun _ => (1920, 1080)) nbOptionsEx
    (nb_request_input nbOptionsEx) nbOptionsEx rfl).1

end ImagesMCP
